import Mathlib

/-!
Verification of the justhttp (fasthttp) HTTP/1.1 wire codec.

Shallow embedding conventions:
* a byte is a `Nat` (< 256 on real inputs);
* a byte slice / buffered stream is a `List Nat`, reads consume from the front
  (the `bufio.Reader` is modelled as the list of bytes it will deliver; a read
  returns `min requested available` bytes, EOF when the list is empty);
* Go `int` fields holding the content-length sentinels (-1 chunked, -2 identity)
  are `Int`;
* fallible Go functions returning `(..., error)` become `Except Err ...`
  with one `Err` constructor per distinct error the source can produce.
-/

/-- Bytes of a Lean string literal (ASCII in all uses below). -/
def strBytes (s : String) : List Nat := s.data.map Char.toNat

/-- Error enumeration for every `error` value produced by the embedded code. -/
inductive Err where
  | needMore            -- errNeedMore from nextLine
  | noColon             -- "cannot find colon at line ..."
  | emptyInt            -- parseUintBuf: "empty integer"
  | badFirstDigit       -- parseUintBuf: "unexpected first char"
  | tooLongInt          -- parseUintBuf: "too long int"
  | nonNumericTail      -- parseContentLength: "Non-numeric chars at the end"
  | noSpaceInFirstLine  -- "cannot find whitespace in the first line"
  | badStatusCodeEnd    -- "unexpected char at the end of status code"
  | missingContentType  -- "missing required Content-Type header"
  | missingLengthAndChunked -- "missing both Content-Length and Transfer-Encoding: chunked"
  | missingHost         -- "missing required Host header"
  | missingPostContentType  -- "missing Content-Type for POST header"
  | missingPostContentLength -- "missing Content-Length for POST header"
  | ioEOF               -- io.EOF surfaced as an error
  | unexpectedEOF       -- io.ErrUnexpectedEOF
  | emptyHexNum         -- readHexInt: "cannot read hex num from empty string"
  | tooLongHexNum       -- readHexInt: "cannot read hex num with more than ..."
  | chunkSizeNoCR       -- parseChunkSize: expected '\r'
  | chunkSizeNoLF       -- parseChunkSize: expected '\n'
  | chunkNoCRLF         -- readBodyChunked: "cannot find crlf at the end of chunk"
  | outOfFuel           -- fuel exhaustion of the embedding (never hit with the
                        -- supplied fuel: every loop iteration consumes ≥ 1 byte)
  deriving DecidableEq, Repr

deriving instance DecidableEq for Except

/-- Go `bytes.IndexByte`: index of the first occurrence of `c`. -/
def idxByte (c : Nat) : List Nat → Option Nat
  | [] => none
  | x :: rest => if x = c then some 0 else (idxByte c rest).map (· + 1)

-- header-name byte strings from header.go
def strCRLF : List Nat := strBytes "\r\n"
def strContentLength : List Nat := strBytes "Content-Length"
def strContentType : List Nat := strBytes "Content-Type"
def strTransferEncoding : List Nat := strBytes "Transfer-Encoding"
def strConnection : List Nat := strBytes "Connection"
def strHost : List Nat := strBytes "Host"
def strUserAgent : List Nat := strBytes "User-Agent"
def strReferer : List Nat := strBytes "Referer"
def strServer : List Nat := strBytes "Server"
def strClose : List Nat := strBytes "close"
def strChunked : List Nat := strBytes "chunked"
def strPost : List Nat := strBytes "POST"

/-- Modelled from the spec: `uppercaseByte` (bytesconv.go, not under src/):
canonicalization uppercases an alphabetic byte, leaves others unchanged. -/
def uppercaseByte (c : Nat) : Nat := if 97 ≤ c ∧ c ≤ 122 then c - 32 else c

/-- Modelled from the spec: `lowercaseByte` (bytesconv.go, not under src/):
canonicalization lowercases an alphabetic byte, leaves others unchanged. -/
def lowercaseByte (c : Nat) : Nat := if 65 ≤ c ∧ c ≤ 90 then c + 32 else c

/-- Go `normalizeHeaderKey` (header.go): walks the key with an `up` flag that is
true initially and after each '-'; uppercases where the flag is set,
lowercases elsewhere; '-' (45) resets the flag. The in-place mutation is
modelled by returning the rewritten list. -/
def normalizeHeaderKeyAux (up : Bool) : List Nat → List Nat
  | [] => []
  | c :: rest =>
    if c = 45 then 45 :: normalizeHeaderKeyAux true rest
    else (if up then uppercaseByte c else lowercaseByte c) ::
      normalizeHeaderKeyAux false rest

def normalizeHeaderKey (b : List Nat) : List Nat := normalizeHeaderKeyAux true b

/-- Go `parseUintBuf` (bytesconv.go): leading decimal digits of `b`; returns the
value and the number of bytes consumed. `maxIntChars = 18` (64-bit). -/
def parseUintLoop : List Nat → Nat → Nat → Except Err (Nat × Nat)
  | [], i, v => .ok (v, i)
  | c :: rest, i, v =>
    if 48 ≤ c ∧ c ≤ 57 then
      if 18 ≤ i then .error .tooLongInt
      else parseUintLoop rest (i + 1) (10 * v + (c - 48))
    else if i = 0 then .error .badFirstDigit
    else .ok (v, i)

def parseUintBuf (b : List Nat) : Except Err (Nat × Nat) :=
  if b = [] then .error .emptyInt else parseUintLoop b 0 0

/-- Go `parseContentLength` (header.go): whole buffer must be digits. -/
def parseContentLength (b : List Nat) : Except Err Nat :=
  match parseUintBuf b with
  | .error e => .error e
  | .ok (v, n) => if n = b.length then .ok v else .error .nonNumericTail

/-- Go `nextLine` (header.go): split at the first '\n' (10), strip at most one
trailing '\r' (13) from the returned line. -/
def nextLine (b : List Nat) : Except Err (List Nat × List Nat) :=
  match idxByte 10 b with
  | none => .error .needMore
  | some nNext =>
    let line := b.take nNext
    let line := if line.getLast? = some 13 then line.dropLast else line
    .ok (line, b.drop (nNext + 1))

/-- Body of `headerParser.next` (header.go) after a nonempty line is fetched:
find ':' (58), normalize the key in place, skip spaces (32) after the colon. -/
def parseHeaderLine (b : List Nat) : Option (List Nat × List Nat) :=
  match idxByte 58 b with
  | none => none
  | some n =>
    some (normalizeHeaderKey (b.take n), (b.drop (n + 1)).dropWhile (fun c => c = 32))

/-- The key/value pairs delivered by successive `headerParser.next` calls up to
the empty line, together with the bytes following the empty line. Fuel bounds
the iteration; each step consumes at least the line's '\n'. -/
def headerKVs : Nat → List Nat → Except Err (List (List Nat × List Nat) × List Nat)
  | 0, _ => .error .outOfFuel
  | fuel + 1, b =>
    match nextLine b with
    | .error e => .error e
    | .ok (line, rest) =>
      if line = [] then .ok ([], rest)
      else
        match parseHeaderLine line with
        | none => .error .noColon
        | some kv =>
          match headerKVs fuel rest with
          | .error e => .error e
          | .ok (pairs, rest2) => .ok (kv :: pairs, rest2)

/-! ### Response header (header.go, second revision: dedicated fields) -/

structure ResponseHeader where
  connectionClose : Bool := false
  statusCode : Nat := 0
  server : List Nat := []
  contentType : List Nat := []
  contentLength : Int := 0
  hkv : List (List Nat × List Nat) := []   -- h.h, the "other" headers
  deriving DecidableEq, Repr

/-- Go `ResponseHeader.setBytes`: replace the value of the first matching key in
place, else append a fresh pair. -/
def setKVList (l : List (List Nat × List Nat)) (k v : List Nat) :
    List (List Nat × List Nat) :=
  match l with
  | [] => [(k, v)]
  | (k0, v0) :: rest =>
    if k0 = k then (k0, v) :: rest else (k0, v0) :: setKVList rest k v

/-- One iteration of the `for p.next()` switch of
`ResponseHeader.parseHeaders` (header.go:930-958). -/
def respStep (h : ResponseHeader) (k v : List Nat) : Except Err ResponseHeader :=
  if k = strContentType then .ok { h with contentType := v }
  else if k = strContentLength ∧ h.contentLength ≠ -1 then
    match parseContentLength v with
    | .error e => .error e
    | .ok n => .ok { h with contentLength := (n : Int) }
  else if k = strTransferEncoding ∧ v = strChunked then
    .ok { h with contentLength := -1 }
  else if k = strServer then .ok { h with server := v }
  else if k = strConnection ∧ v = strClose then .ok { h with connectionClose := true }
  else .ok { h with hkv := setKVList h.hkv k v }

/-- The header loop of `ResponseHeader.parseHeaders`: lex a line, stop at the
empty line, otherwise split key/value and run the switch. -/
def respLoop : Nat → ResponseHeader → List Nat →
    Except Err (ResponseHeader × List Nat)
  | 0, _, _ => .error .outOfFuel
  | fuel + 1, h, b =>
    match nextLine b with
    | .error e => .error e
    | .ok (line, rest) =>
      if line = [] then .ok (h, rest)
      else
        match parseHeaderLine line with
        | none => .error .noColon
        | some (k, v) =>
          match respStep h k v with
          | .error e => .error e
          | .ok h2 => respLoop fuel h2 rest

/-- Go `ResponseHeader.parseHeaders` (header.go:924-970): set contentLength to the
-2 sentinel, run the loop, then demand a Content-Type and either a
Content-Length or chunked encoding. `statusCode` was set by the first line. -/
def respParseHeaders (statusCode : Nat) (b : List Nat) :
    Except Err (ResponseHeader × List Nat) :=
  match respLoop (b.length + 1) { statusCode := statusCode, contentLength := -2 } b with
  | .error e => .error e
  | .ok (h, rest) =>
    if h.contentType = [] then .error .missingContentType
    else if h.contentLength = -2 then .error .missingLengthAndChunked
    else .ok (h, rest)

/-- The `for len(b) == 0` prologue of `parseFirstLine`: skip empty lines. -/
def skipEmptyLines : Nat → List Nat → Except Err (List Nat × List Nat)
  | 0, _ => .error .outOfFuel
  | fuel + 1, b =>
    match nextLine b with
    | .error e => .error e
    | .ok (line, rest) =>
      if line = [] then skipEmptyLines fuel rest else .ok (line, rest)

/-- Go `ResponseHeader.parseFirstLine` (header.go:897-922): skip the protocol up
to the first space, parse the status code, require a space (or end) after it. -/
def respParseFirstLine (buf : List Nat) : Except Err (Nat × List Nat) :=
  match skipEmptyLines (buf.length + 1) buf with
  | .error e => .error e
  | .ok (line, bNext) =>
    match idxByte 32 line with
    | none => .error .noSpaceInFirstLine
    | some n =>
      let b := line.drop (n + 1)
      match parseUintBuf b with
      | .error _ => .error .badFirstDigit
      | .ok (code, m) =>
        if m < b.length ∧ b.get? m ≠ some 32 then .error .badStatusCodeEnd
        else .ok (code, bNext)

/-- Go `ResponseHeader.parse`: first line then headers. A successful
`ResponseHeader.Read` on a fully buffered stream consumes exactly the header
bytes, i.e. leaves the returned rest in the reader. -/
def respParse (buf : List Nat) : Except Err (ResponseHeader × List Nat) :=
  match respParseFirstLine buf with
  | .error e => .error e
  | .ok (code, b) => respParseHeaders code b

/-! ### Request header (header.go, second revision: dedicated fields) -/

structure RequestHeader where
  method : List Nat := []
  requestURI : List Nat := []
  host : List Nat := []
  userAgent : List Nat := []
  referer : List Nat := []
  contentType : List Nat := []
  contentLength : Int := 0
  deriving DecidableEq, Repr

def RequestHeader.isMethodPost (h : RequestHeader) : Bool := h.method = strPost

/-- One iteration of the `for p.next()` chain of
`RequestHeader.parseHeaders` (header.go:1172-1203); unknown keys are dropped. -/
def reqStep (h : RequestHeader) (k v : List Nat) : Except Err RequestHeader :=
  if k = strHost then .ok { h with host := v }
  else if k = strUserAgent then .ok { h with userAgent := v }
  else if k = strReferer then .ok { h with referer := v }
  else if k = strContentType then .ok { h with contentType := v }
  else if k = strContentLength ∧ h.contentLength ≠ -1 then
    match parseContentLength v with
    | .error e => .error e
    | .ok n => .ok { h with contentLength := (n : Int) }
  else if k = strTransferEncoding ∧ v = strChunked then
    .ok { h with contentLength := -1 }
  else .ok h

def reqLoop : Nat → RequestHeader → List Nat →
    Except Err (RequestHeader × List Nat)
  | 0, _, _ => .error .outOfFuel
  | fuel + 1, h, b =>
    match nextLine b with
    | .error e => .error e
    | .ok (line, rest) =>
      if line = [] then .ok (h, rest)
      else
        match parseHeaderLine line with
        | none => .error .noColon
        | some (k, v) =>
          match reqStep h k v with
          | .error e => .error e
          | .ok h2 => reqLoop fuel h2 rest

/-- Go `RequestHeader.parseHeaders` (header.go:1166-1223): loop, then require a
Host; for POST require Content-Type and Content-Length/chunked; for non-POST
force contentLength to 0. `method`/`requestURI` were set by the first line. -/
def reqParseHeaders (method : List Nat) (b : List Nat) :
    Except Err (RequestHeader × List Nat) :=
  match reqLoop (b.length + 1) { method := method, contentLength := -2 } b with
  | .error e => .error e
  | .ok (h, rest) =>
    if h.host = [] then .error .missingHost
    else if h.isMethodPost then
      if h.contentType = [] then .error .missingPostContentType
      else if h.contentLength = -2 then .error .missingPostContentLength
      else .ok (h, rest)
    else .ok ({ h with contentLength := 0 }, rest)

/-! ### Body codec (http.go) -/

/-- The read loop of `appendBodyFixedSize` (http.go:197-212): each
`bufio.Read` delivers `min need available` bytes; an empty stream yields EOF,
converted to `io.ErrUnexpectedEOF`. Returns the grown buffer, the remaining
stream and the error (the source returns the partially filled `dst[:offset]`
alongside the error). -/
def fixedRead (s acc : List Nat) (need : Nat) : List Nat × List Nat × Option Err :=
  match s with
  | [] => (acc, [], some .unexpectedEOF)
  | c :: rest =>
    let k := min need (c :: rest).length
    if h : k = need then (acc ++ (c :: rest).take k, (c :: rest).drop k, none)
    else fixedRead ((c :: rest).drop k) (acc ++ (c :: rest).take k) (need - k)
termination_by need
decreasing_by
  have h3 : 0 < need := by
    rcases Nat.eq_zero_or_pos need with h0 | h0
    · exact absurd (by simp [k, h0]) h
    · exact h0
  exact Nat.sub_lt h3 (lt_min h3 (by simp))

/-- Go `appendBodyFixedSize` (http.go:183-213): `n = 0` returns immediately,
otherwise run the read loop (buffer growth via `round2` only changes capacity,
not contents). -/
def appendBodyFixedSize (s dst : List Nat) (n : Nat) : List Nat × List Nat × Option Err :=
  if n = 0 then (dst, s, none) else fixedRead s dst n

/-- Go `readBodyIdentity` (http.go:157-181): read until EOF, EOF is success. -/
def readBodyIdentity (s dst : List Nat) : List Nat × List Nat × Option Err :=
  (dst ++ s, [], none)

/-- Go `readHexInt` (bytesconv.go:116-144). `hexVal` is the digit
classification of its if/else chain; `maxHexIntChars = 15` (64-bit). -/
def hexVal (c : Nat) : Option Nat :=
  if 48 ≤ c ∧ c ≤ 57 then some (c - 48)
  else if 97 ≤ c ∧ c ≤ 102 then some (10 + (c - 97))
  else if 65 ≤ c ∧ c ≤ 70 then some (10 + (c - 65))
  else none

def readHexIntLoop : List Nat → Nat → Nat → Except Err (Nat × List Nat)
  | [], _, _ => .error .ioEOF
  | c :: rest, n, i =>
    match hexVal c with
    | none =>
      if i = 0 then .error .emptyHexNum
      else .ok (n, c :: rest)    -- UnreadByte: c stays in the stream
    | some k =>
      if 15 ≤ i then .error .tooLongHexNum
      else readHexIntLoop rest (n * 16 + k) (i + 1)

def readHexInt (s : List Nat) : Except Err (Nat × List Nat) := readHexIntLoop s 0 0

/-- Go `parseChunkSize` (http.go:240-260): hex size then '\r' '\n'. -/
def parseChunkSize (s : List Nat) : Except Err (Nat × List Nat) :=
  match readHexInt s with
  | .error e => .error e
  | .ok (n, s1) =>
    match s1 with
    | [] => .error .ioEOF
    | c :: s2 =>
      if c ≠ 13 then .error .chunkSizeNoCR
      else
        match s2 with
        | [] => .error .ioEOF
        | c2 :: s3 =>
          if c2 ≠ 10 then .error .chunkSizeNoLF
          else .ok (n, s3)

/-- Loop of `readBodyChunked` (http.go:215-238): parse a chunk size, read
`size + len(CRLF)` bytes, demand the trailing CRLF, strip it, stop at size 0. -/
def readBodyChunkedLoop : Nat → List Nat → List Nat →
    Except Err (List Nat × List Nat)
  | 0, _, _ => .error .outOfFuel
  | fuel + 1, s, dst =>
    match parseChunkSize s with
    | .error e => .error e
    | .ok (chunkSize, s1) =>
      match appendBodyFixedSize s1 dst (chunkSize + strCRLF.length) with
      | (_, _, some e) => .error e
      | (dst1, s2, none) =>
        if dst1.drop (dst1.length - strCRLF.length) = strCRLF then
          let dst2 := dst1.take (dst1.length - strCRLF.length)
          if chunkSize = 0 then .ok (dst2, s2)
          else readBodyChunkedLoop fuel s2 dst2
        else .error .chunkNoCRLF

/-- Go `readBodyChunked` with the zero-length `dst` its callers supply; fuel
`s.length + 1` suffices since every iteration consumes at least 3 bytes. -/
def readBodyChunked (s : List Nat) : Except Err (List Nat × List Nat) :=
  readBodyChunkedLoop (s.length + 1) s []

/-- Go `readBody` (http.go:146-155) with the truncated `dst = dst[:0]`. -/
def readBody (s : List Nat) (contentLength : Int) : Except Err (List Nat × List Nat) :=
  if 0 ≤ contentLength then
    match appendBodyFixedSize s [] contentLength.toNat with
    | (_, _, some e) => .error e
    | (dst, s1, none) => .ok (dst, s1)
  else if contentLength = -1 then readBodyChunked s
  else
    match readBodyIdentity s [] with
    | (dst, s1, _) => .ok (dst, s1)

/-- Go `isSkipResponseBody` (http.go:416-423); `StatusNoContent = 204`,
`StatusNotModified = 304` per the comment in the source ("All 1xx
(informational), 204 (no content), and 304 (not modified) ..."). -/
def isSkipResponseBody (statusCode : Nat) : Bool :=
  if 100 ≤ statusCode ∧ statusCode < 200 then true
  else statusCode = 204 ∨ statusCode = 304

structure Response where
  header : ResponseHeader
  body : List Nat
  deriving DecidableEq, Repr

/-- Go `Response.Read` (http.go:318-334): parse the header; unless the status
code or the SkipBody flag says otherwise, read the body per the parsed
content length and record its length in the header. -/
def responseRead (skipBody : Bool) (s : List Nat) : Except Err (Response × List Nat) :=
  match respParse s with
  | .error e => .error e
  | .ok (h, rest) =>
    if ¬ isSkipResponseBody h.statusCode ∧ ¬ skipBody then
      match readBody rest h.contentLength with
      | .error e => .error e
      | .ok (body, rest2) =>
        .ok ({ header := { h with contentLength := (body.length : Int) }, body := body }, rest2)
    else .ok ({ header := h, body := [] }, rest)

/-! ### Chunked write path (http.go) -/

/-- Modelled from the spec: `writeHexInt` (bytesconv.go, not under src/):
"write `hex-size CRLF data CRLF`" — the chunk size in hexadecimal
(lowercase digits), most significant digit first, "0" for zero. -/
def hexDigitLower (d : Nat) : Nat := if d < 10 then 48 + d else 87 + d

def writeHexIntAux (n : Nat) (acc : List Nat) : List Nat :=
  if n < 16 then hexDigitLower n :: acc
  else writeHexIntAux (n / 16) (hexDigitLower (n % 16) :: acc)
termination_by n
decreasing_by exact Nat.div_lt_self (by omega) (by omega)

def writeHexInt (n : Nat) : List Nat := writeHexIntAux n []

/-- Go `writeChunk` (http.go:405-412): hex size, CRLF, data, CRLF. -/
def writeChunk (b : List Nat) : List Nat :=
  writeHexInt b.length ++ strCRLF ++ b ++ strCRLF

/-- The successive `r.Read(buf)` results of `writeBodyChunked`'s loop with its
4096-byte buffer: the source stream split into pieces of at most 4096 bytes. -/
def splitChunks (b : List Nat) : List (List Nat) :=
  if h : b = [] then [] else b.take 4096 :: splitChunks (b.drop 4096)
termination_by b.length
decreasing_by
  have : b.length ≠ 0 := fun hl => h (List.eq_nil_of_length_eq_zero hl)
  simp
  omega

/-- Go `writeBodyChunked` (http.go:373-403): one `writeChunk` per read, then the
zero-length terminator chunk once EOF is reached. -/
def writeBodyChunked (body : List Nat) : List Nat :=
  ((splitChunks body).map writeChunk).flatten ++ writeChunk []

/-! ### Args codec (args.go) -/

/-- Go `unhex` (args.go:181-192). -/
def unhex (c : Nat) : Int :=
  if 48 ≤ c ∧ c ≤ 57 then (c : Int) - 48
  else if 97 ≤ c ∧ c ≤ 102 then 10 + ((c : Int) - 97)
  else if 65 ≤ c ∧ c ≤ 70 then 10 + ((c : Int) - 65)
  else -1

/-- Go `decodeArg` (args.go:194-220) with `decodePlus = true` (the only mode the
args parser uses): '+' (43) becomes ' ' (32); '%' (37) followed by two hex
digits becomes that byte; a '%' with fewer than two bytes after it copies the
remainder verbatim and stops; an invalid escape keeps the lone '%'. -/
def decodeArg : List Nat → List Nat
  | [] => []
  | c :: rest =>
    if c = 43 then 32 :: decodeArg rest
    else if c = 37 then
      match rest with
      | x1 :: x2 :: rest2 =>
        if unhex x1 < 0 ∨ unhex x2 < 0 then 37 :: decodeArg (x1 :: x2 :: rest2)
        else ((unhex x1).toNat * 16 + (unhex x2).toNat) :: decodeArg rest2
      | _ => c :: rest
    else c :: decodeArg rest
termination_by l => l.length
decreasing_by
  all_goals simp
  all_goals omega

/-- Key/value of one segment, as in `argsParser.next` (args.go:267-274):
split at the first '=' (61); no '=' means empty value. -/
def segKV (b : List Nat) : List Nat × List Nat :=
  match idxByte 61 b with
  | none => (decodeArg b, [])
  | some n => (decodeArg (b.take n), decodeArg (b.drop (n + 1)))

/-- Go `Args.ParseBytes` (args.go:105-131) materialised as the list of pairs the
repeated `argsParser.Next` calls deliver: split the remainder at the next '&'
(38), decode the segment, skip pairs whose key and value are both empty. -/
def argsPairs (b : List Nat) : List (List Nat × List Nat) :=
  if hb : b = [] then []
  else
    match hi : idxByte 38 b with
    | none =>
      let kv := segKV b
      if kv.1 = [] ∧ kv.2 = [] then [] else [kv]
    | some n =>
      let kv := segKV (b.take n)
      if kv.1 = [] ∧ kv.2 = [] then argsPairs (b.drop (n + 1))
      else kv :: argsPairs (b.drop (n + 1))
termination_by b.length
decreasing_by
  all_goals
    have : b.length ≠ 0 := fun hl => hb (List.eq_nil_of_length_eq_zero hl)
    simp
    omega

/-- Go `hexChar` (args.go:174-179): uppercase hex digit. -/
def hexChar (c : Nat) : Nat := if c < 10 then 48 + c else c - 10 + 65

/-- Go `appendQuotedArg` (args.go:163-172): digits, letters and '/' (47) pass
through, every other byte becomes '%' (37) plus two uppercase hex digits. -/
def appendQuotedArg (dst : List Nat) : List Nat → List Nat
  | [] => dst
  | c :: rest =>
    if (48 ≤ c ∧ c ≤ 57) ∨ (97 ≤ c ∧ c ≤ 122) ∨ (65 ≤ c ∧ c ≤ 90) ∨ c = 47 then
      appendQuotedArg (dst ++ [c]) rest
    else appendQuotedArg (dst ++ [37, hexChar (c / 16), hexChar (c % 16)]) rest

/-! ### Status line (header.go:1271-1294) -/

/-- Reason phrase switch of `statusLine`. -/
def statusText (statusCode : Nat) : List Nat :=
  if statusCode = 200 then strBytes "OK"
  else if statusCode = 500 then strBytes "Internal server error"
  else strBytes "Error"

/-- Go `Sprintf("%d", n)`: decimal digits; the fuel `n + 1` always suffices
since `n / 10 < n` for positive `n`. -/
def decDigitsAux : Nat → Nat → List Nat → List Nat
  | 0, _, acc => acc
  | fuel + 1, n, acc =>
    if n < 10 then (48 + n) :: acc
    else decDigitsAux fuel (n / 10) ((48 + n % 10) :: acc)

def decDigits (n : Nat) : List Nat := decDigitsAux (n + 1) n []

/-- The line `fmt.Sprintf("HTTP/1.1 %d %s\r\n", statusCode, statusText)`
built by `statusLine` on a cache miss. -/
def statusLineFresh (statusCode : Nat) : List Nat :=
  strBytes "HTTP/1.1 " ++ decDigits statusCode ++ [32] ++ statusText statusCode ++ strCRLF

/-- Go `m[statusCode]` on the cached map (nil result modelled as `none`). -/
def lookupKV : List (Nat × List Nat) → Nat → Option (List Nat)
  | [], _ => none
  | (k, v) :: rest, c => if k = c then some v else lookupKV rest c

/-- Go `statusLine` (header.go:1271-1294): return the cached line on a hit; on a
miss format the line, copy the map, add the entry and store the new map.
The atomically swapped map is modelled as explicit state. -/
def statusLine (m : List (Nat × List Nat)) (statusCode : Nat) :
    List Nat × List (Nat × List Nat) :=
  match lookupKV m statusCode with
  | some h => (h, m)
  | none => (statusLineFresh statusCode, m ++ [(statusCode, statusLineFresh statusCode)])

/-! ### Further definitions used by the claims -/

/-- Number of hex digits `writeHexInt` produces. -/
def hexLen (n : Nat) : Nat :=
  if n < 16 then 1 else hexLen (n / 16) + 1
termination_by n
decreasing_by exact Nat.div_lt_self (by omega) (by omega)

/-- The alphabet the spec claims passes through unquoted: `[A-Za-z0-9/.]`. -/
def specQuoteAlphabet (c : Nat) : Prop :=
  (48 ≤ c ∧ c ≤ 57) ∨ (97 ≤ c ∧ c ≤ 122) ∨ (65 ≤ c ∧ c ≤ 90) ∨ c = 47 ∨ c = 46

instance (c : Nat) : Decidable (specQuoteAlphabet c) := by
  unfold specQuoteAlphabet; infer_instance

/-- The alphabet `appendQuotedArg` actually passes through: `[A-Za-z0-9/]`,
without '.'. -/
def quotedAlphabet (c : Nat) : Prop :=
  (48 ≤ c ∧ c ≤ 57) ∨ (97 ≤ c ∧ c ≤ 122) ∨ (65 ≤ c ∧ c ≤ 90) ∨ c = 47

instance (c : Nat) : Decidable (quotedAlphabet c) := by
  unfold quotedAlphabet; infer_instance

/-- Cache well-formedness: every stored line is the formatted line of its
status code. -/
def statusLineCacheOK (m : List (Nat × List Nat)) : Prop :=
  ∀ p ∈ m, p.2 = statusLineFresh p.1

/-- Spec-side split (the spec's words, for the refinement claim): split the
query string on '&' (38). -/
def argsSpecSplit (b : List Nat) : List (List Nat) :=
  if hb : b = [] then [[]]
  else
    match idxByte 38 b with
    | none => [b]
    | some n => b.take n :: argsSpecSplit (b.drop (n + 1))
termination_by b.length
decreasing_by
  have : b.length ≠ 0 := fun hl => hb (List.eq_nil_of_length_eq_zero hl)
  simp
  omega

/-- Spec-side parse (§4.4): split on '&', split each segment at its first
'=', percent-decode key and value, drop segments where both are empty. -/
def argsSpecParse (b : List Nat) : List (List Nat × List Nat) :=
  ((argsSpecSplit b).map segKV).filter (fun kv => decide ¬(kv.1 = [] ∧ kv.2 = []))

/-- One header line plus terminator per element, then the empty line. -/
def joinLines (term : List Nat) (lines : List (List Nat)) : List Nat :=
  (lines.map (fun l => l ++ term)).flatten ++ term

/-- The response header switch folded over a pair list. -/
def respFold (st : ResponseHeader) : List (List Nat × List Nat) → Except Err ResponseHeader
  | [] => .ok st
  | (k, v) :: rest =>
    match respStep st k v with
    | .error e => .error e
    | .ok st2 => respFold st2 rest

/-- The request header chain folded over a pair list. -/
def reqFold (st : RequestHeader) : List (List Nat × List Nat) → Except Err RequestHeader
  | [] => .ok st
  | (k, v) :: rest =>
    match reqStep st k v with
    | .error e => .error e
    | .ok st2 => reqFold st2 rest

/-! ### C5: header-key canonicalization -/

theorem uppercaseByte_45 : uppercaseByte 45 = 45 := by simp [uppercaseByte]

theorem lowercaseByte_45 : lowercaseByte 45 = 45 := by simp [lowercaseByte]

/-- Here `normalizeHeaderKeyAux` rewrites each byte according to its predecessor
(the virtual predecessor of the first byte being '-' exactly when the flag is
set). -/
theorem normalizeHeaderKeyAux_eq_zip (b : List Nat) (prev : Nat) :
    normalizeHeaderKeyAux (decide (prev = 45)) b =
      ((prev :: b).zip b).map
        (fun p => if p.1 = 45 then uppercaseByte p.2 else lowercaseByte p.2) := by
  induction b generalizing prev with
  | nil => simp [normalizeHeaderKeyAux]
  | cons c rest ih =>
    by_cases hc : c = 45
    · subst hc
      have hIH := ih 45
      rw [show decide ((45 : Nat) = 45) = true by simp] at hIH
      simp [normalizeHeaderKeyAux, hIH, uppercaseByte_45, lowercaseByte_45]
    · have hIH := ih c
      have hd : decide (c = 45) = false := by simp [hc]
      rw [hd] at hIH
      simp only [normalizeHeaderKeyAux, if_neg hc, List.zip_cons_cons,
        List.map_cons, hIH]
      by_cases hp : prev = 45 <;> simp [hp]

theorem normalizeHeaderKey_eq_zip (b : List Nat) :
    normalizeHeaderKey b =
      ((45 :: b).zip b).map
        (fun p => if p.1 = 45 then uppercaseByte p.2 else lowercaseByte p.2) := by
  have h := normalizeHeaderKeyAux_eq_zip b 45
  simpa [normalizeHeaderKey] using h

theorem normalizeHeaderKey_length (b : List Nat) :
    (normalizeHeaderKey b).length = b.length := by
  simp [normalizeHeaderKey_eq_zip]

/-- C5: `normalizeHeaderKey` preserves length; the first byte and every byte
immediately following a '-' is uppercased (when alphabetic), every other
byte is lowercased (when alphabetic); non-alphabetic bytes are unchanged. -/
theorem c5_normalizeHeaderKey (b : List Nat) (i : Nat) (h : i < b.length)
    (h2 : i < (normalizeHeaderKey b).length) (h3 : i - 1 < b.length) :
    (normalizeHeaderKey b).length = b.length ∧
    (normalizeHeaderKey b).get ⟨i, h2⟩ =
      (if i = 0 ∨ b.get ⟨i - 1, h3⟩ = 45 then uppercaseByte (b.get ⟨i, h⟩)
       else lowercaseByte (b.get ⟨i, h⟩)) ∧
    ((b.get ⟨i, h⟩ < 65 ∨ (90 < b.get ⟨i, h⟩ ∧ b.get ⟨i, h⟩ < 97) ∨
        122 < b.get ⟨i, h⟩) →
      (normalizeHeaderKey b).get ⟨i, h2⟩ = b.get ⟨i, h⟩) := by
  have hmain : (normalizeHeaderKey b).get ⟨i, h2⟩ =
      (if i = 0 ∨ b.get ⟨i - 1, h3⟩ = 45 then uppercaseByte (b.get ⟨i, h⟩)
       else lowercaseByte (b.get ⟨i, h⟩)) := by
    simp only [List.get_eq_getElem, normalizeHeaderKey_eq_zip, List.getElem_map,
      List.getElem_zip]
    cases i with
    | zero => simp
    | succ j =>
      simp only [List.getElem_cons_succ, Nat.succ_ne_zero, false_or,
        Nat.add_sub_cancel]
  refine ⟨normalizeHeaderKey_length b, hmain, ?_⟩
  intro hrange
  rw [hmain]
  split
  · simp only [uppercaseByte]
    split <;> omega
  · simp only [lowercaseByte]
    split <;> omega

/-! ### C7: args serialization alphabet -/

/-- C7 counterexample: '.' (byte 46) is in the claimed alphabet, yet the
serializer emits it percent-encoded as "%2E", not as a literal byte. -/
theorem c7_counterexample :
    specQuoteAlphabet 46 ∧ appendQuotedArg [] [46] = [37, 50, 69] ∧
      appendQuotedArg [] [46] ≠ [46] := by
  refine ⟨by decide, by decide, by decide⟩

theorem appendQuotedArg_append (v : List Nat) :
    ∀ dst, appendQuotedArg dst v = dst ++ appendQuotedArg [] v := by
  induction v with
  | nil => intro dst; simp [appendQuotedArg]
  | cons c rest ih =>
    intro dst
    by_cases hc : quotedAlphabet c
    · rw [show appendQuotedArg dst (c :: rest) = appendQuotedArg (dst ++ [c]) rest by
        simp only [appendQuotedArg, quotedAlphabet] at hc ⊢; rw [if_pos hc]]
      rw [show appendQuotedArg [] (c :: rest) = appendQuotedArg ([] ++ [c]) rest by
        simp only [appendQuotedArg, quotedAlphabet] at hc ⊢; rw [if_pos hc]]
      rw [ih (dst ++ [c]), ih ([] ++ [c])]
      simp
    · rw [show appendQuotedArg dst (c :: rest) =
          appendQuotedArg (dst ++ [37, hexChar (c / 16), hexChar (c % 16)]) rest by
        simp only [appendQuotedArg, quotedAlphabet] at hc ⊢; rw [if_neg hc]]
      rw [show appendQuotedArg [] (c :: rest) =
          appendQuotedArg ([] ++ [37, hexChar (c / 16), hexChar (c % 16)]) rest by
        simp only [appendQuotedArg, quotedAlphabet] at hc ⊢; rw [if_neg hc]]
      rw [ih (dst ++ _), ih ([] ++ _)]
      simp

/-- C7 amended: a byte passes through as a literal iff it is in
`[A-Za-z0-9/]` ('.' is not included); every other byte becomes '%' followed
by the two uppercase hex digits of the byte, at any position of the buffer. -/
theorem c7_amended (dst v : List Nat) (c : Nat) (hc : c < 256) :
    (appendQuotedArg [] [c] = [c] ↔ quotedAlphabet c) ∧
    (¬ quotedAlphabet c →
      appendQuotedArg [] [c] = [37, hexChar (c / 16), hexChar (c % 16)] ∧
      (48 ≤ hexChar (c / 16) ∧ hexChar (c / 16) ≤ 57 ∨
        65 ≤ hexChar (c / 16) ∧ hexChar (c / 16) ≤ 70) ∧
      (48 ≤ hexChar (c % 16) ∧ hexChar (c % 16) ≤ 57 ∨
        65 ≤ hexChar (c % 16) ∧ hexChar (c % 16) ≤ 70)) ∧
    appendQuotedArg dst (c :: v) =
      dst ++ appendQuotedArg [] [c] ++ appendQuotedArg [] v := by
  have hstep : ∀ (d w : List Nat), appendQuotedArg d (c :: w) =
      appendQuotedArg (d ++ (if quotedAlphabet c then [c]
        else [37, hexChar (c / 16), hexChar (c % 16)])) w := by
    intro d w
    by_cases hq : quotedAlphabet c
    · rw [if_pos hq]
      have hq2 := hq
      simp only [quotedAlphabet] at hq2
      simp only [appendQuotedArg]
      rw [if_pos hq2]
    · rw [if_neg hq]
      have hq2 := hq
      simp only [quotedAlphabet] at hq2
      simp only [appendQuotedArg]
      rw [if_neg hq2]
  have hone : ∀ d : List Nat, appendQuotedArg d [c] =
      d ++ (if quotedAlphabet c then [c]
            else [37, hexChar (c / 16), hexChar (c % 16)]) := by
    intro d
    rw [hstep d []]
    simp only [appendQuotedArg]
  refine ⟨?_, ?_, ?_⟩
  · rw [hone []]
    constructor
    · intro he
      by_contra hq
      rw [if_neg hq] at he
      simp at he
    · intro hq; rw [if_pos hq]; rfl
  · intro hq
    refine ⟨by rw [hone [], if_neg hq]; rfl, ?_, ?_⟩
    · simp only [hexChar]
      have hlt : c / 16 < 16 := by omega
      split <;> omega
    · simp only [hexChar]
      have hlt : c % 16 < 16 := by omega
      split <;> omega
  · rw [hstep dst v, appendQuotedArg_append, hone []]
    simp

/-! ### C8: status line construction and cache -/

theorem lookupKV_mem {m : List (Nat × List Nat)} {c : Nat} {v : List Nat}
    (h : lookupKV m c = some v) : (c, v) ∈ m := by
  induction m with
  | nil => simp [lookupKV] at h
  | cons p rest ih =>
    obtain ⟨k, w⟩ := p
    simp only [lookupKV] at h
    by_cases hk : k = c
    · subst hk
      rw [if_pos rfl] at h
      cases h
      exact List.mem_cons_self _ _
    · rw [if_neg hk] at h
      exact List.mem_cons_of_mem _ (ih h)

theorem lookupKV_append_self {m : List (Nat × List Nat)} {c : Nat} (v : List Nat)
    (h : lookupKV m c = none) : lookupKV (m ++ [(c, v)]) c = some v := by
  induction m with
  | nil => simp [lookupKV]
  | cons p rest ih =>
    obtain ⟨k, w⟩ := p
    simp only [lookupKV] at h ⊢
    by_cases hk : k = c
    · rw [if_pos hk] at h; cases h
    · rw [if_neg hk] at h ⊢
      exact ih h

/-- C8: with a well-formed cache, `statusLine` returns exactly
`"HTTP/1.1 " ++ decimal code ++ " " ++ reason ++ CRLF` (reason "OK" for 200,
"Internal server error" for 500, "Error" otherwise), keeps the cache
well-formed (adding an entry only on a miss), and a repeated call with the
same code returns the same line. -/
theorem c8_statusLine (m : List (Nat × List Nat)) (c : Nat)
    (hok : statusLineCacheOK m) :
    (statusLine m c).1 = statusLineFresh c ∧
    statusLineCacheOK (statusLine m c).2 ∧
    (statusLine (statusLine m c).2 c).1 = (statusLine m c).1 ∧
    statusLineFresh c =
      strBytes "HTTP/1.1 " ++ decDigits c ++ [32] ++ statusText c ++ strCRLF ∧
    statusText 200 = strBytes "OK" ∧
    statusText 500 = strBytes "Internal server error" ∧
    (c ≠ 200 → c ≠ 500 → statusText c = strBytes "Error") := by
  cases hl : lookupKV m c with
  | some v =>
    have hv : v = statusLineFresh c := hok _ (lookupKV_mem hl)
    refine ⟨?_, ?_, ?_, rfl, rfl, rfl, ?_⟩
    · simp [statusLine, hl, hv]
    · simp only [statusLine, hl]
      exact hok
    · simp [statusLine, hl]
    · intro h200 h500; simp [statusText, h200, h500]
  | none =>
    refine ⟨?_, ?_, ?_, rfl, rfl, rfl, ?_⟩
    · simp [statusLine, hl]
    · simp only [statusLine, hl]
      intro p hp
      rcases List.mem_append.1 hp with hm | hm
      · exact hok _ hm
      · simp at hm
        rw [hm]
    · simp only [statusLine, hl]
      rw [lookupKV_append_self _ hl]
    · intro h200 h500; simp [statusText, h200, h500]

/-- C5 witness: concrete canonicalization at position 3 of "cOnTent-tyPe". -/
theorem c5_normalizeHeaderKey_witness :
    normalizeHeaderKey (strBytes "cOnTent-tyPe") = strBytes "Content-Type" ∧
    (normalizeHeaderKey (strBytes "cOnTent-tyPe")).length =
      (strBytes "cOnTent-tyPe").length := by
  have h := c5_normalizeHeaderKey (strBytes "cOnTent-tyPe") 3 (by decide)
    (by decide) (by decide)
  exact ⟨by decide, h.1⟩

/-- C7 witness: the space byte (32) is outside the alphabet and is emitted
as "%20"; 'a' (97) is emitted literally. -/
theorem c7_amended_witness :
    appendQuotedArg [] [32] = [37, 50, 48] ∧ appendQuotedArg [] [97] = [97] := by
  have h1 := c7_amended [] [] 32 (by decide)
  have h2 := c7_amended [] [] 97 (by decide)
  exact ⟨(h1.2.1 (by decide)).1, h2.1.2 (by decide)⟩

/-- C8 witness: a miss on the empty cache for 404 formats
"HTTP/1.1 404 Error\r\n" and a repeated call returns the same line. -/
theorem c8_statusLine_witness :
    (statusLine [] 404).1 = strBytes "HTTP/1.1 404 Error\r\n" ∧
    (statusLine (statusLine [] 404).2 404).1 = (statusLine [] 404).1 := by
  have h := c8_statusLine [] 404 (by intro p hp; simp at hp)
  exact ⟨by rw [h.1]; decide, h.2.2.1⟩

/-! ### C3: fixed-size body reads -/

theorem fixedRead_enough (s acc : List Nat) (n : Nat) (h1 : 0 < n)
    (h2 : n ≤ s.length) : fixedRead s acc n = (acc ++ s.take n, s.drop n, none) := by
  cases s with
  | nil => simp at h2; omega
  | cons c rest =>
    have h2s : n ≤ rest.length + 1 := by simpa using h2
    have hk : n ⊓ (rest.length + 1) = n := min_eq_left h2s
    rw [fixedRead]
    simp only [List.length_cons, hk]
    simp

theorem fixedRead_short (s acc : List Nat) (n : Nat) (h2 : s.length < n) :
    fixedRead s acc n = (acc ++ s, [], some .unexpectedEOF) := by
  cases s with
  | nil => rw [fixedRead]; simp
  | cons c rest =>
    have h2s : rest.length + 1 < n := by simpa using h2
    have hk : n ⊓ (rest.length + 1) = rest.length + 1 := min_eq_right (by omega)
    rw [fixedRead]
    simp only [List.length_cons, hk]
    rw [dif_neg (by omega)]
    have hdrop : (c :: rest).drop (rest.length + 1) = [] := by
      apply List.drop_eq_nil_of_le; simp
    have htake : (c :: rest).take (rest.length + 1) = c :: rest := by
      apply List.take_of_length_le; simp
    rw [hdrop, htake, fixedRead]

/-- C3: a fixed-size read of `n > 0` bytes from a stream holding at least `n`
bytes consumes exactly `n` bytes and appends exactly those bytes to the
destination; a shorter stream fails with `ErrUnexpectedEOF`. -/
theorem c3_appendBodyFixedSize (s dst : List Nat) (n : Nat) :
    (0 < n → n ≤ s.length →
      appendBodyFixedSize s dst n = (dst ++ s.take n, s.drop n, none)) ∧
    (0 < n → s.length < n →
      (appendBodyFixedSize s dst n).2.2 = some .unexpectedEOF) := by
  constructor
  · intro h1 h2
    rw [appendBodyFixedSize, if_neg (by omega)]
    exact fixedRead_enough s dst n h1 h2
  · intro h1 h2
    rw [appendBodyFixedSize, if_neg (by omega)]
    rw [fixedRead_short s dst n h2]

/-- C3 witness: reading 3 of "hello" takes "hel", leaves "lo"; reading 3 from
"h" fails with unexpected EOF. -/
theorem c3_appendBodyFixedSize_witness :
    appendBodyFixedSize (strBytes "hello") (strBytes "x") 3 =
      (strBytes "xhel", strBytes "lo", none) ∧
    (appendBodyFixedSize (strBytes "h") [] 3).2.2 = some .unexpectedEOF := by
  have h1 := (c3_appendBodyFixedSize (strBytes "hello") (strBytes "x") 3).1
    (by decide) (by decide)
  have h2 := (c3_appendBodyFixedSize (strBytes "h") [] 3).2 (by decide) (by decide)
  refine ⟨?_, h2⟩
  rw [h1]
  decide

/-! ### C1: chunked body round trip -/

theorem hexLen_pos (n : Nat) : 1 ≤ hexLen n := by
  rw [hexLen]
  split
  · omega
  · omega

theorem hexLen_le (k : Nat) : ∀ n, n < 16 ^ k → 1 ≤ k → hexLen n ≤ k := by
  induction k with
  | zero => omega
  | succ j ih =>
    intro n hn _
    by_cases h16 : n < 16
    · rw [hexLen, if_pos h16]; omega
    · rw [hexLen, if_neg h16]
      have hj : 1 ≤ j := by
        by_contra hj0
        have : j = 0 := by omega
        subst this
        simp [pow_succ] at hn
        omega
      have hdiv : n / 16 < 16 ^ j := by
        rw [pow_succ] at hn
        omega
      have := ih (n / 16) hdiv hj
      omega

theorem hexVal_hexDigitLower (d : Nat) (hd : d < 16) :
    hexVal (hexDigitLower d) = some d := by
  by_cases h : d < 10
  · simp only [hexDigitLower, if_pos h, hexVal]
    rw [if_pos (by omega)]
    congr 1
    omega
  · simp only [hexDigitLower, if_neg h, hexVal]
    rw [if_neg (by omega), if_pos (by omega)]
    congr 1
    omega

theorem writeHexIntAux_append (n : Nat) : ∀ acc : List Nat,
    writeHexIntAux n acc = writeHexIntAux n [] ++ acc := by
  induction n using Nat.strong_induction_on with
  | _ n ih =>
    intro acc
    by_cases h16 : n < 16
    · rw [writeHexIntAux, if_pos h16, writeHexIntAux, if_pos h16]
      rfl
    · have hlt : n / 16 < n := Nat.div_lt_self (by omega) (by omega)
      rw [writeHexIntAux, if_neg h16]
      rw [show writeHexIntAux n [] = writeHexIntAux (n / 16) [hexDigitLower (n % 16)] from
        by rw [writeHexIntAux, if_neg h16]]
      rw [ih (n / 16) hlt (hexDigitLower (n % 16) :: acc),
        ih (n / 16) hlt [hexDigitLower (n % 16)]]
      simp

theorem readHexIntLoop_write (n : Nat) : ∀ (acc : List Nat) (v i : Nat),
    i + hexLen n ≤ 15 →
    readHexIntLoop (writeHexIntAux n acc) v i =
      readHexIntLoop acc (16 ^ hexLen n * v + n) (i + hexLen n) := by
  induction n using Nat.strong_induction_on with
  | _ n ih =>
    intro acc v i hi
    by_cases h16 : n < 16
    · rw [hexLen, if_pos h16] at hi ⊢
      rw [writeHexIntAux, if_pos h16]
      rw [readHexIntLoop]
      rw [hexVal_hexDigitLower n h16]
      simp only
      rw [if_neg (by omega)]
      have hval : v * 16 + n = 16 ^ 1 * v + n := by ring
      rw [hval]
    · rw [hexLen, if_neg h16] at hi ⊢
      rw [writeHexIntAux, if_neg h16]
      have hlt : n / 16 < n := Nat.div_lt_self (by omega) (by omega)
      have hsub : i + hexLen (n / 16) ≤ 15 := by omega
      rw [ih (n / 16) hlt _ v i hsub]
      rw [readHexIntLoop]
      rw [hexVal_hexDigitLower (n % 16) (by omega)]
      simp only
      rw [if_neg (by omega)]
      have hval : (16 ^ hexLen (n / 16) * v + n / 16) * 16 + n % 16 =
          16 ^ (hexLen (n / 16) + 1) * v + n := by
        have hm : 16 * (n / 16) + n % 16 = n := Nat.div_add_mod n 16
        calc (16 ^ hexLen (n / 16) * v + n / 16) * 16 + n % 16
            = 16 ^ hexLen (n / 16) * 16 * v + (16 * (n / 16) + n % 16) := by ring
          _ = 16 ^ (hexLen (n / 16) + 1) * v + n := by rw [hm, pow_succ]
      rw [hval]
      have hidx : i + hexLen (n / 16) + 1 = i + (hexLen (n / 16) + 1) := by omega
      rw [hidx]

theorem readHexInt_writeHexInt (n : Nat) (hn : hexLen n ≤ 15) (c : Nat)
    (hc : hexVal c = none) (rest : List Nat) :
    readHexInt (writeHexInt n ++ c :: rest) = .ok (n, c :: rest) := by
  rw [readHexInt, writeHexInt, ← writeHexIntAux_append n (c :: rest)]
  rw [readHexIntLoop_write n (c :: rest) 0 0 (by omega)]
  rw [readHexIntLoop, hc]
  have h1 := hexLen_pos n
  simp only
  rw [if_neg (by omega)]
  congr 2
  omega

theorem parseChunkSize_write (n : Nat) (hn : hexLen n ≤ 15) (rest : List Nat) :
    parseChunkSize (writeHexInt n ++ 13 :: 10 :: rest) = .ok (n, rest) := by
  rw [parseChunkSize, readHexInt_writeHexInt n hn 13 (by decide) (10 :: rest)]
  simp

theorem strCRLF_eq : strCRLF = [13, 10] := by decide

theorem readBodyChunkedLoop_chunk (piece s dst : List Nat) (fuel : Nat)
    (hlen : piece.length ≤ 4096) :
    readBodyChunkedLoop (fuel + 1) (writeChunk piece ++ s) dst =
      if piece.length = 0 then .ok (dst, s)
      else readBodyChunkedLoop fuel s (dst ++ piece) := by
  have hhex : hexLen piece.length ≤ 15 :=
    hexLen_le 15 _ (lt_of_le_of_lt hlen (by norm_num)) (by omega)
  have hstream : writeChunk piece ++ s =
      writeHexInt piece.length ++ 13 :: 10 :: (piece ++ 13 :: 10 :: s) := by
    simp [writeChunk, strCRLF_eq]
  have happ : appendBodyFixedSize (piece ++ 13 :: 10 :: s) dst
      (piece.length + strCRLF.length) = (dst ++ piece ++ [13, 10], s, none) := by
    rw [show strCRLF.length = 2 from by decide]
    rw [appendBodyFixedSize, if_neg (by omega)]
    rw [fixedRead_enough _ _ _ (by omega) (by simp)]
    have hsplit : piece ++ 13 :: 10 :: s = (piece ++ [13, 10]) ++ s := by simp
    rw [hsplit]
    rw [List.take_left' (by simp), List.drop_left' (by simp)]
    simp
  rw [readBodyChunkedLoop, hstream, parseChunkSize_write _ hhex _]
  simp only [happ]
  rw [show strCRLF.length = 2 from by decide]
  have hxl : (dst ++ piece ++ [13, 10]).length - 2 = (dst ++ piece).length := by
    simp
    omega
  rw [hxl]
  rw [List.drop_left, List.take_left]
  rw [if_pos (by rw [strCRLF_eq])]
  by_cases hp : piece.length = 0
  · have hpe : piece = [] := List.eq_nil_of_length_eq_zero hp
    subst hpe
    simp
  · rw [if_neg hp, if_neg hp]

theorem splitChunksFlattenAux (k : Nat) : ∀ b : List Nat, b.length ≤ k →
    (splitChunks b).flatten = b := by
  induction k with
  | zero =>
    intro b hb
    have hbe : b = [] := List.eq_nil_of_length_eq_zero (by omega)
    subst hbe
    rw [splitChunks]
    simp
  | succ j ih =>
    intro b hb
    by_cases hbe : b = []
    · subst hbe
      rw [splitChunks]
      simp
    · rw [splitChunks, dif_neg hbe]
      simp only [List.flatten_cons]
      have hlb : 0 < b.length := by
        cases b
        · exact absurd rfl hbe
        · simp
      rw [ih (b.drop 4096) (by simp; omega)]
      exact List.take_append_drop 4096 b

theorem splitChunks_flatten (b : List Nat) : (splitChunks b).flatten = b :=
  splitChunksFlattenAux b.length b le_rfl

theorem splitChunksPieceAux (k : Nat) : ∀ b : List Nat, b.length ≤ k →
    ∀ p ∈ splitChunks b, p ≠ [] ∧ p.length ≤ 4096 := by
  induction k with
  | zero =>
    intro b hb
    have hbe : b = [] := List.eq_nil_of_length_eq_zero (by omega)
    subst hbe
    rw [splitChunks]
    simp
  | succ j ih =>
    intro b hb
    by_cases hbe : b = []
    · subst hbe
      rw [splitChunks]
      simp
    · rw [splitChunks, dif_neg hbe]
      intro p hp
      rcases List.mem_cons.1 hp with hph | hpt
      · subst hph
        constructor
        · intro hnil
          cases b with
          | nil => exact absurd rfl hbe
          | cons c rest =>
            rw [show (c :: rest).take 4096 = c :: rest.take 4095 from rfl] at hnil
            exact absurd hnil (by simp)
        · simp
      · have hlb : 0 < b.length := by
          cases b
          · exact absurd rfl hbe
          · simp
        exact ih (b.drop 4096) (by simp; omega) p hpt

theorem splitChunks_piece (b : List Nat) :
    ∀ p ∈ splitChunks b, p ≠ [] ∧ p.length ≤ 4096 :=
  splitChunksPieceAux b.length b le_rfl

theorem readBodyChunkedLoop_pieces (pieces : List (List Nat)) :
    ∀ (dst s0 : List Nat) (fuel : Nat),
    (∀ p ∈ pieces, p ≠ [] ∧ p.length ≤ 4096) → pieces.length + 1 ≤ fuel →
    readBodyChunkedLoop fuel ((pieces.map writeChunk).flatten ++ (writeChunk [] ++ s0)) dst =
      .ok (dst ++ pieces.flatten, s0) := by
  induction pieces with
  | nil =>
    intro dst s0 fuel _ hf
    obtain ⟨f, rfl⟩ : ∃ f, fuel = f + 1 := ⟨fuel - 1, by omega⟩
    simp only [List.map_nil, List.flatten_nil, List.nil_append]
    rw [readBodyChunkedLoop_chunk [] s0 dst f (by simp)]
    simp
  | cons p ps ih =>
    intro dst s0 fuel h hf
    obtain ⟨f, rfl⟩ : ∃ f, fuel = f + 1 := ⟨fuel - 1, by omega⟩
    have hp := h p (List.mem_cons_self p ps)
    simp only [List.map_cons, List.flatten_cons, List.append_assoc]
    rw [show writeChunk p ++ ((ps.map writeChunk).flatten ++ (writeChunk [] ++ s0)) =
      writeChunk p ++ ((ps.map writeChunk).flatten ++ (writeChunk [] ++ s0)) from rfl]
    rw [readBodyChunkedLoop_chunk p _ dst f hp.2]
    rw [if_neg (by
      intro h0
      exact hp.1 (List.eq_nil_of_length_eq_zero h0))]
    rw [ih (dst ++ p) s0 f (fun q hq => h q (List.mem_cons_of_mem p hq))
      (by simp at hf ⊢; omega)]
    simp

theorem writeChunk_length_pos (p : List Nat) : 1 ≤ (writeChunk p).length := by
  simp [writeChunk, strCRLF_eq]
  omega

theorem encodeChunks_length (pieces : List (List Nat)) :
    pieces.length ≤ ((pieces.map writeChunk).flatten).length := by
  induction pieces with
  | nil => simp
  | cons p ps ih =>
    simp only [List.map_cons, List.flatten_cons, List.length_append, List.length_cons]
    have := writeChunk_length_pos p
    omega

/-- C1: for every byte sequence, writing it with the chunked writer and
reading the produced bytes back with the chunked reader yields exactly the
original body, with the terminating zero-size chunk consumed (any trailing
bytes are left unread). -/
theorem c1_chunked_roundtrip (body extra : List Nat) :
    readBodyChunked (writeBodyChunked body ++ extra) = .ok (body, extra) := by
  rw [readBodyChunked, writeBodyChunked]
  have hpieces := splitChunks_piece body
  have hfuel : (splitChunks body).length + 1 ≤
      ((((splitChunks body).map writeChunk).flatten ++ writeChunk []) ++ extra).length + 1 := by
    have h1 := encodeChunks_length (splitChunks body)
    simp only [List.length_append]
    omega
  rw [show (((splitChunks body).map writeChunk).flatten ++ writeChunk []) ++ extra =
    ((splitChunks body).map writeChunk).flatten ++ (writeChunk [] ++ extra) from by simp]
  rw [readBodyChunkedLoop_pieces (splitChunks body) [] extra _ hpieces (by
    simpa using hfuel)]
  rw [splitChunks_flatten]
  simp

/-! ### C10: implicit body skip on response read -/

/-- C10: when the parsed status code is 1xx, 204 or 304, or when SkipBody is
set, `Response.Read` returns an empty body and consumes nothing beyond the
header block. -/
theorem c10_skip_body (skip : Bool) (s : List Nat) (h : ResponseHeader)
    (rest : List Nat) (hp : respParse s = .ok (h, rest))
    (hskip : isSkipResponseBody h.statusCode = true ∨ skip = true) :
    responseRead skip s = .ok ({ header := h, body := [] }, rest) := by
  have hcond : ¬ (¬ isSkipResponseBody h.statusCode = true ∧ ¬ skip = true) := by
    rcases hskip with h1 | h1 <;> simp [h1]
  simp only [responseRead, hp]
  rw [if_neg hcond]

/-- C10 witness: a 304 response with a Content-Length is read with an empty
body, leaving the would-be body bytes unread; likewise SkipBody on a 200. -/
theorem c10_skip_body_witness :
    responseRead false
        (strBytes "HTTP/1.1 304 Not Modified\r\nContent-Type: aa\r\nContent-Length: 1235\r\n\r\nfoobar") =
      .ok ({ header := { statusCode := 304, contentType := strBytes "aa",
                         contentLength := 1235 }, body := [] },
           strBytes "foobar") ∧
    responseRead true
        (strBytes "HTTP/1.1 200 OK\r\nContent-Type: xml\r\nContent-Length: 4\r\n\r\nxxxx") =
      .ok ({ header := { statusCode := 200, contentType := strBytes "xml",
                         contentLength := 4 }, body := [] },
           strBytes "xxxx") := by
  constructor
  · exact c10_skip_body false _
      { statusCode := 304, contentType := strBytes "aa", contentLength := 1235 }
      (strBytes "foobar") (by decide) (Or.inl (by decide))
  · exact c10_skip_body true _
      { statusCode := 200, contentType := strBytes "xml", contentLength := 4 }
      (strBytes "xxxx") (by decide) (Or.inr rfl)

/-! ### C6: args parsing -/

theorem argsPairsSpecAux (k : Nat) : ∀ b : List Nat, b.length ≤ k →
    argsPairs b = argsSpecParse b := by
  induction k with
  | zero =>
    intro b hb
    have hbe : b = [] := List.eq_nil_of_length_eq_zero (by omega)
    subst hbe
    rw [argsPairs, argsSpecParse, argsSpecSplit]
    simp [segKV, idxByte, decodeArg]
  | succ j ih =>
    intro b hb
    by_cases hbe : b = []
    · subst hbe
      rw [argsPairs, argsSpecParse, argsSpecSplit]
      simp [segKV, idxByte, decodeArg]
    · have hlb : 0 < b.length := List.length_pos.2 hbe
      rw [argsPairs, dif_neg hbe, argsSpecParse, argsSpecSplit, dif_neg hbe]
      cases hi : idxByte 38 b with
      | none =>
        simp only
        by_cases hkv : (segKV b).1 = [] ∧ (segKV b).2 = []
        · rw [if_pos hkv]
          simp [List.filter, hkv.1, hkv.2]
        · rw [if_neg hkv]
          rcases not_and_or.1 hkv with h1 | h1 <;> simp [List.filter, h1]
      | some n =>
        simp only
        have hrest := ih (b.drop (n + 1)) (by simp; omega)
        rw [argsSpecParse] at hrest
        by_cases hkv : (segKV (b.take n)).1 = [] ∧ (segKV (b.take n)).2 = []
        · rw [if_pos hkv, hrest]
          simp [List.filter_cons, hkv.1, hkv.2]
        · rw [if_neg hkv, hrest]
          rcases not_and_or.1 hkv with h1 | h1 <;> simp [List.filter_cons, h1]

/-- C6: `Args.ParseBytes` splits on '&', splits each segment at its first '=',
percent-decodes key and value with '+' as space, and drops segments where both
key and value are empty; on `foo&b%20r=b+z=&qwe` it yields exactly
("foo", ""), ("b r", "b z="), ("qwe", ""). -/
theorem c6_argsParse (b : List Nat) :
    argsPairs b = argsSpecParse b ∧
    argsPairs (strBytes "foo&b%20r=b+z=&qwe") =
      [(strBytes "foo", []), (strBytes "b r", strBytes "b z="),
       (strBytes "qwe", [])] := by
  constructor
  · exact argsPairsSpecAux b.length b le_rfl
  · simp [strBytes, argsPairs, segKV, idxByte, decodeArg, unhex]

/-! ### C9: bare-LF line terminators -/

theorem idxByte_append_self (c : Nat) (l r : List Nat) (hc : c ∉ l) :
    idxByte c (l ++ c :: r) = some l.length := by
  induction l with
  | nil => simp [idxByte]
  | cons x rest ih =>
    have hx : x ≠ c := fun h => hc (h ▸ List.mem_cons_self x rest)
    simp only [List.cons_append, idxByte, if_neg hx]
    show Option.map (fun x => x + 1) (idxByte c (rest ++ c :: r)) =
      some (x :: rest).length
    rw [ih (fun h => hc (List.mem_cons_of_mem x h))]
    simp

theorem nextLine_crlf (l r : List Nat) (hl : 10 ∉ l) :
    nextLine (l ++ 13 :: 10 :: r) = .ok (l, r) := by
  have hnm : 10 ∉ l ++ [13] := by
    intro h
    rcases List.mem_append.1 h with h1 | h1
    · exact hl h1
    · simp at h1
  have hidx : idxByte 10 (l ++ 13 :: 10 :: r) = some (l.length + 1) := by
    have h := idxByte_append_self 10 (l ++ [13]) r hnm
    simpa using h
  have htake : (l ++ 13 :: 10 :: r).take (l.length + 1) = l ++ [13] := by
    rw [show l ++ 13 :: 10 :: r = (l ++ [13]) ++ 10 :: r from by simp]
    exact List.take_left' (by simp)
  have hdrop : (l ++ 13 :: 10 :: r).drop (l.length + 1 + 1) = r := by
    rw [show l ++ 13 :: 10 :: r = (l ++ [13, 10]) ++ r from by simp]
    exact List.drop_left' (by simp)
  rw [nextLine, hidx]
  simp only [htake, hdrop]
  simp [List.getLast?_concat, List.dropLast_concat]

theorem nextLine_lf (l r : List Nat) (hl : 10 ∉ l) (hl13 : 13 ∉ l) :
    nextLine (l ++ 10 :: r) = .ok (l, r) := by
  have hlast : l.getLast? ≠ some 13 := by
    intro h
    have hmem : (13 : Nat) ∈ l.getLast? := Option.mem_def.2 h
    obtain ⟨hne, heq⟩ := List.mem_getLast?_eq_getLast hmem
    exact hl13 (heq ▸ List.getLast_mem hne)
  have htake : (l ++ 10 :: r).take l.length = l := List.take_left l (10 :: r)
  have hdrop : (l ++ 10 :: r).drop (l.length + 1) = r := by
    rw [show l ++ 10 :: r = (l ++ [10]) ++ r from by simp]
    exact List.drop_left' (by simp)
  rw [nextLine, idxByte_append_self 10 l r hl]
  simp only [htake, hdrop]
  rw [if_neg hlast]

theorem joinLines_length (term : List Nat) (ht : 1 ≤ term.length)
    (lines : List (List Nat)) :
    lines.length + 1 ≤ (joinLines term lines).length := by
  induction lines with
  | nil => simp [joinLines]; omega
  | cons l ls ih =>
    simp only [joinLines, List.map_cons, List.flatten_cons, List.length_append,
      List.length_cons] at ih ⊢
    omega

theorem headerKVs_term_eq (lines : List (List Nat)) :
    ∀ f1 f2 : Nat, (∀ l ∈ lines, l ≠ [] ∧ 10 ∉ l ∧ 13 ∉ l) →
    lines.length + 1 ≤ f1 → lines.length + 1 ≤ f2 →
    headerKVs f1 (joinLines [13, 10] lines) =
      headerKVs f2 (joinLines [10] lines) := by
  induction lines with
  | nil =>
    intro f1 f2 _ hf1 hf2
    obtain ⟨g1, rfl⟩ : ∃ g, f1 = g + 1 := ⟨f1 - 1, by omega⟩
    obtain ⟨g2, rfl⟩ : ∃ g, f2 = g + 1 := ⟨f2 - 1, by omega⟩
    rw [headerKVs, headerKVs]
    rw [show joinLines [13, 10] [] = [] ++ 13 :: 10 :: [] from by simp [joinLines],
      nextLine_crlf [] [] (by simp)]
    rw [show joinLines [10] [] = [] ++ 10 :: [] from by simp [joinLines],
      nextLine_lf [] [] (by simp) (by simp)]
    simp
  | cons l ls ih =>
    intro f1 f2 hok hf1 hf2
    obtain ⟨g1, rfl⟩ : ∃ g, f1 = g + 1 := ⟨f1 - 1, by omega⟩
    obtain ⟨g2, rfl⟩ : ∃ g, f2 = g + 1 := ⟨f2 - 1, by omega⟩
    have hl := hok l (List.mem_cons_self l ls)
    rw [headerKVs, headerKVs]
    rw [show joinLines [13, 10] (l :: ls) = l ++ 13 :: 10 :: joinLines [13, 10] ls
      from by simp [joinLines], nextLine_crlf l _ hl.2.1]
    rw [show joinLines [10] (l :: ls) = l ++ 10 :: joinLines [10] ls
      from by simp [joinLines], nextLine_lf l _ hl.2.1 hl.2.2]
    simp only
    rw [if_neg hl.1, if_neg hl.1]
    cases parseHeaderLine l with
    | none => rfl
    | some kv =>
      simp only
      rw [ih g1 g2 (fun x hx => hok x (List.mem_cons_of_mem l hx))
        (by simp at hf1 ⊢; omega) (by simp at hf2 ⊢; omega)]

/-- C9: `nextLine` accepts a bare-LF terminated line exactly as a CRLF one
(split at the first LF, strip at most one trailing CR), and lexing a header
block whose lines use only LF yields the same key/value pairs as the same
block with CRLF terminators. -/
theorem c9_bare_lf (l r : List Nat) (lines : List (List Nat))
    (hl10 : 10 ∉ l) (hl13 : 13 ∉ l)
    (hlines : ∀ x ∈ lines, x ≠ [] ∧ 10 ∉ x ∧ 13 ∉ x) :
    nextLine (l ++ 13 :: 10 :: r) = .ok (l, r) ∧
    nextLine (l ++ 10 :: r) = .ok (l, r) ∧
    headerKVs ((joinLines [13, 10] lines).length + 1) (joinLines [13, 10] lines) =
      headerKVs ((joinLines [10] lines).length + 1) (joinLines [10] lines) := by
  refine ⟨nextLine_crlf l r hl10, nextLine_lf l r hl10 hl13, ?_⟩
  exact headerKVs_term_eq lines _ _ hlines
    (by have := joinLines_length [13, 10] (by simp) lines; omega)
    (by have := joinLines_length [10] (by simp) lines; omega)

/-- C9 witness: a two-line block parses identically with CRLF and bare LF. -/
theorem c9_bare_lf_witness :
    nextLine (strBytes "abc\r\ndef") = .ok (strBytes "abc", strBytes "def") ∧
    headerKVs 20 (strBytes "Content-Type: a\nContent-Length: 3\n\nrest") =
      .ok ([(strBytes "Content-Type", strBytes "a"),
            (strBytes "Content-Length", strBytes "3")], strBytes "rest") ∧
    headerKVs 39 (strBytes "Content-Type: a\r\nContent-Length: 3\r\n\r\n") =
      headerKVs 36 (strBytes "Content-Type: a\nContent-Length: 3\n\n") := by
  have h := c9_bare_lf (strBytes "abc") (strBytes "def")
    [strBytes "Content-Type: a", strBytes "Content-Length: 3"]
    (by decide) (by decide) (by decide)
  refine ⟨?_, by decide, ?_⟩
  · have h1 := h.1
    rw [show strBytes "abc" ++ 13 :: 10 :: strBytes "def" =
      strBytes "abc\r\ndef" from by decide] at h1
    exact h1
  · have h3 := h.2.2
    rw [show joinLines [13, 10] [strBytes "Content-Type: a", strBytes "Content-Length: 3"] =
      strBytes "Content-Type: a\r\nContent-Length: 3\r\n\r\n" from by decide] at h3
    rw [show joinLines [10] [strBytes "Content-Type: a", strBytes "Content-Length: 3"] =
      strBytes "Content-Type: a\nContent-Length: 3\n\n" from by decide] at h3
    rw [show (strBytes "Content-Type: a\r\nContent-Length: 3\r\n\r\n").length + 1 = 39
      from by decide] at h3
    rw [show (strBytes "Content-Type: a\nContent-Length: 3\n\n").length + 1 = 36
      from by decide] at h3
    exact h3

/-! ### C2/C4: header parse loops as folds over the lexed pairs -/

theorem respLoop_kvs (fuel : Nat) : ∀ (st : ResponseHeader) (b : List Nat)
    (st2 : ResponseHeader) (rest : List Nat),
    respLoop fuel st b = .ok (st2, rest) →
    ∃ pairs, headerKVs fuel b = .ok (pairs, rest) ∧ respFold st pairs = .ok st2 := by
  induction fuel with
  | zero =>
    intro st b st2 rest h
    simp [respLoop] at h
  | succ f ih =>
    intro st b st2 rest h
    rw [respLoop] at h
    cases hn : nextLine b with
    | error e => rw [hn] at h; simp at h
    | ok lr =>
      obtain ⟨line, rest0⟩ := lr
      rw [hn] at h
      simp only at h
      by_cases hline : line = []
      · rw [if_pos hline] at h
        simp only [Except.ok.injEq, Prod.mk.injEq] at h
        obtain ⟨rfl, rfl⟩ := h
        refine ⟨[], ?_, rfl⟩
        rw [headerKVs, hn]
        simp [hline]
      · rw [if_neg hline] at h
        cases hp : parseHeaderLine line with
        | none => rw [hp] at h; simp at h
        | some kv =>
          obtain ⟨k, v⟩ := kv
          rw [hp] at h
          simp only at h
          cases hs : respStep st k v with
          | error e => rw [hs] at h; simp at h
          | ok st1 =>
            rw [hs] at h
            simp only at h
            obtain ⟨pairs, hkv, hfold⟩ := ih st1 rest0 st2 rest h
            refine ⟨(k, v) :: pairs, ?_, ?_⟩
            · rw [headerKVs, hn]
              simp only
              rw [if_neg hline, hp]
              simp only
              rw [hkv]
            · rw [respFold, hs]
              exact hfold

theorem reqLoop_kvs (fuel : Nat) : ∀ (st : RequestHeader) (b : List Nat)
    (st2 : RequestHeader) (rest : List Nat),
    reqLoop fuel st b = .ok (st2, rest) →
    ∃ pairs, headerKVs fuel b = .ok (pairs, rest) ∧ reqFold st pairs = .ok st2 := by
  induction fuel with
  | zero =>
    intro st b st2 rest h
    simp [reqLoop] at h
  | succ f ih =>
    intro st b st2 rest h
    rw [reqLoop] at h
    cases hn : nextLine b with
    | error e => rw [hn] at h; simp at h
    | ok lr =>
      obtain ⟨line, rest0⟩ := lr
      rw [hn] at h
      simp only at h
      by_cases hline : line = []
      · rw [if_pos hline] at h
        simp only [Except.ok.injEq, Prod.mk.injEq] at h
        obtain ⟨rfl, rfl⟩ := h
        refine ⟨[], ?_, rfl⟩
        rw [headerKVs, hn]
        simp [hline]
      · rw [if_neg hline] at h
        cases hp : parseHeaderLine line with
        | none => rw [hp] at h; simp at h
        | some kv =>
          obtain ⟨k, v⟩ := kv
          rw [hp] at h
          simp only at h
          cases hs : reqStep st k v with
          | error e => rw [hs] at h; simp at h
          | ok st1 =>
            rw [hs] at h
            simp only at h
            obtain ⟨pairs, hkv, hfold⟩ := ih st1 rest0 st2 rest h
            refine ⟨(k, v) :: pairs, ?_, ?_⟩
            · rw [headerKVs, hn]
              simp only
              rw [if_neg hline, hp]
              simp only
              rw [hkv]
            · rw [reqFold, hs]
              exact hfold

theorem respStep_cl_keep {st st1 : ResponseHeader} {k v : List Nat}
    (hs : respStep st k v = .ok st1) (hc : st.contentLength = -1) :
    st1.contentLength = -1 := by
  rw [respStep] at hs
  split_ifs at hs with h1 h2 h3 h4 h5
  · simp only [Except.ok.injEq] at hs
    subst hs
    exact hc
  · exact absurd hc h2.2
  · simp only [Except.ok.injEq] at hs
    subst hs
    rfl
  · simp only [Except.ok.injEq] at hs
    subst hs
    exact hc
  · simp only [Except.ok.injEq] at hs
    subst hs
    exact hc
  · simp only [Except.ok.injEq] at hs
    subst hs
    exact hc

theorem respFold_cl_neg1 (pairs : List (List Nat × List Nat)) :
    ∀ (st st2 : ResponseHeader), respFold st pairs = .ok st2 →
    st.contentLength = -1 → st2.contentLength = -1 := by
  induction pairs with
  | nil =>
    intro st st2 h hc
    rw [respFold] at h
    simp only [Except.ok.injEq] at h
    subst h
    exact hc
  | cons kv rest ih =>
    intro st st2 h hc
    obtain ⟨k, v⟩ := kv
    rw [respFold] at h
    cases hs : respStep st k v with
    | error e => rw [hs] at h; simp at h
    | ok st1 =>
      rw [hs] at h
      simp only at h
      exact ih st1 st2 h (respStep_cl_keep hs hc)

theorem respFold_chunked (pairs : List (List Nat × List Nat)) :
    ∀ (st st2 : ResponseHeader), respFold st pairs = .ok st2 →
    (strTransferEncoding, strChunked) ∈ pairs → st2.contentLength = -1 := by
  induction pairs with
  | nil =>
    intro st st2 _ hmem
    simp at hmem
  | cons kv rest ih =>
    intro st st2 h hmem
    obtain ⟨k, v⟩ := kv
    rw [respFold] at h
    cases hs : respStep st k v with
    | error e => rw [hs] at h; simp at h
    | ok st1 =>
      rw [hs] at h
      simp only at h
      rcases List.mem_cons.1 hmem with hh | ht
      · obtain ⟨hk, hv⟩ : strTransferEncoding = k ∧ strChunked = v := by
          simpa using hh
        subst hk
        subst hv
        rw [respStep] at hs
        rw [if_neg (by decide : ¬ strTransferEncoding = strContentType)] at hs
        rw [if_neg (fun hcon =>
          absurd hcon.1 (by decide : ¬ strTransferEncoding = strContentLength))] at hs
        rw [if_pos ⟨rfl, rfl⟩] at hs
        simp only [Except.ok.injEq] at hs
        subst hs
        exact respFold_cl_neg1 rest _ st2 h rfl
      · exact ih st1 st2 h ht

/-- C2: whenever a successfully parsed response header block contains both a
Content-Length line and a Transfer-Encoding: chunked line (in either order),
the parsed ContentLength is -1; in particular on the spec's concrete example. -/
theorem c2_chunked_wins :
    (∀ (code : Nat) (buf : List Nat) (st2 : ResponseHeader)
        (rest : List Nat) (pairs : List (List Nat × List Nat)),
      respParseHeaders code buf = .ok (st2, rest) →
      headerKVs (buf.length + 1) buf = .ok (pairs, rest) →
      (∃ v, (strContentLength, v) ∈ pairs) →
      (strTransferEncoding, strChunked) ∈ pairs →
      st2.contentLength = -1) ∧
    (respParse (strBytes "HTTP/1.1 200 OK\r\nContent-Type: foo/bar\r\nContent-Length: 123\r\nTransfer-Encoding: chunked\r\n\r\n")).map
        (fun p => p.1.contentLength) = .ok (-1) := by
  constructor
  · intro code buf st2 rest pairs hph hkv _ hte
    rw [respParseHeaders] at hph
    cases hl : respLoop (buf.length + 1)
        { statusCode := code, contentLength := -2 } buf with
    | error e => rw [hl] at hph; simp at hph
    | ok pr =>
      obtain ⟨h0, rest0⟩ := pr
      rw [hl] at hph
      simp only at hph
      by_cases hct : h0.contentType = []
      · rw [if_pos hct] at hph
        simp at hph
      · rw [if_neg hct] at hph
        by_cases hclen : h0.contentLength = -2
        · rw [if_pos hclen] at hph
          simp at hph
        · rw [if_neg hclen] at hph
          simp only [Except.ok.injEq, Prod.mk.injEq] at hph
          obtain ⟨rfl, rfl⟩ := hph
          obtain ⟨pairs2, hkv2, hfold⟩ := respLoop_kvs _ _ _ _ _ hl
          rw [hkv] at hkv2
          simp only [Except.ok.injEq, Prod.mk.injEq] at hkv2
          obtain ⟨rfl, -⟩ := hkv2
          exact respFold_chunked pairs _ _ hfold hte
  · decide

/-- C2 witness: chunked listed before Content-Length (the other order). -/
theorem c2_chunked_wins_witness :
    respParseHeaders 200
        (strBytes "Transfer-Encoding: chunked\r\nContent-Length: 123\r\nContent-Type: a\r\n\r\n") =
      .ok ({ statusCode := 200, contentType := strBytes "a", contentLength := -1,
             hkv := [(strContentLength, strBytes "123")] }, []) ∧
    ({ statusCode := 200, contentType := strBytes "a", contentLength := -1,
       hkv := [(strContentLength, strBytes "123")] } : ResponseHeader).contentLength
      = -1 := by
  refine ⟨by decide, ?_⟩
  exact c2_chunked_wins.1 200
    (strBytes "Transfer-Encoding: chunked\r\nContent-Length: 123\r\nContent-Type: a\r\n\r\n")
    _ []
    [(strTransferEncoding, strChunked), (strContentLength, strBytes "123"),
     (strContentType, strBytes "a")]
    (by decide) (by decide) ⟨strBytes "123", by decide⟩ (by decide)

/-! ### C4: request header parse preconditions -/

theorem reqStep_method {st st1 : RequestHeader} {k v : List Nat}
    (hs : reqStep st k v = .ok st1) : st1.method = st.method := by
  rw [reqStep] at hs
  split_ifs at hs with h1 h2 h3 h4 h5 h6
  · simp only [Except.ok.injEq] at hs; subst hs; rfl
  · simp only [Except.ok.injEq] at hs; subst hs; rfl
  · simp only [Except.ok.injEq] at hs; subst hs; rfl
  · simp only [Except.ok.injEq] at hs; subst hs; rfl
  · cases hp : parseContentLength v with
    | error e => rw [hp] at hs; simp at hs
    | ok n => rw [hp] at hs; simp only [Except.ok.injEq] at hs; subst hs; rfl
  · simp only [Except.ok.injEq] at hs; subst hs; rfl
  · simp only [Except.ok.injEq] at hs; subst hs; rfl

theorem reqStep_host {st st1 : RequestHeader} {k v : List Nat}
    (hs : reqStep st k v = .ok st1) :
    st1.host = st.host ∨ (k = strHost ∧ st1.host = v) := by
  rw [reqStep] at hs
  split_ifs at hs with h1 h2 h3 h4 h5 h6
  · right
    refine ⟨h1, ?_⟩
    simp only [Except.ok.injEq] at hs; subst hs; rfl
  · left; simp only [Except.ok.injEq] at hs; subst hs; rfl
  · left; simp only [Except.ok.injEq] at hs; subst hs; rfl
  · left; simp only [Except.ok.injEq] at hs; subst hs; rfl
  · left
    cases hp : parseContentLength v with
    | error e => rw [hp] at hs; simp at hs
    | ok n => rw [hp] at hs; simp only [Except.ok.injEq] at hs; subst hs; rfl
  · left; simp only [Except.ok.injEq] at hs; subst hs; rfl
  · left; simp only [Except.ok.injEq] at hs; subst hs; rfl

theorem reqStep_ct {st st1 : RequestHeader} {k v : List Nat}
    (hs : reqStep st k v = .ok st1) :
    st1.contentType = st.contentType ∨ (k = strContentType ∧ st1.contentType = v) := by
  rw [reqStep] at hs
  split_ifs at hs with h1 h2 h3 h4 h5 h6
  · left; simp only [Except.ok.injEq] at hs; subst hs; rfl
  · left; simp only [Except.ok.injEq] at hs; subst hs; rfl
  · left; simp only [Except.ok.injEq] at hs; subst hs; rfl
  · right
    refine ⟨h4, ?_⟩
    simp only [Except.ok.injEq] at hs; subst hs; rfl
  · left
    cases hp : parseContentLength v with
    | error e => rw [hp] at hs; simp at hs
    | ok n => rw [hp] at hs; simp only [Except.ok.injEq] at hs; subst hs; rfl
  · left; simp only [Except.ok.injEq] at hs; subst hs; rfl
  · left; simp only [Except.ok.injEq] at hs; subst hs; rfl

theorem reqStep_cl {st st1 : RequestHeader} {k v : List Nat}
    (hs : reqStep st k v = .ok st1) :
    st1.contentLength = st.contentLength ∨ k = strContentLength ∨
      (k = strTransferEncoding ∧ v = strChunked) := by
  rw [reqStep] at hs
  split_ifs at hs with h1 h2 h3 h4 h5 h6
  · left; simp only [Except.ok.injEq] at hs; subst hs; rfl
  · left; simp only [Except.ok.injEq] at hs; subst hs; rfl
  · left; simp only [Except.ok.injEq] at hs; subst hs; rfl
  · left; simp only [Except.ok.injEq] at hs; subst hs; rfl
  · right; left; exact h5.1
  · right; right; exact h6
  · left; simp only [Except.ok.injEq] at hs; subst hs; rfl

theorem reqFold_method (pairs : List (List Nat × List Nat)) :
    ∀ st st2 : RequestHeader, reqFold st pairs = .ok st2 →
    st2.method = st.method := by
  induction pairs with
  | nil =>
    intro st st2 h
    rw [reqFold] at h
    simp only [Except.ok.injEq] at h; subst h; rfl
  | cons kv rest ih =>
    intro st st2 h
    obtain ⟨k, v⟩ := kv
    rw [reqFold] at h
    cases hs : reqStep st k v with
    | error e => rw [hs] at h; simp at h
    | ok st1 =>
      rw [hs] at h
      simp only at h
      rw [ih st1 st2 h, reqStep_method hs]

theorem reqFold_host (pairs : List (List Nat × List Nat)) :
    ∀ st st2 : RequestHeader, reqFold st pairs = .ok st2 →
    st2.host = st.host ∨ ∃ v, (strHost, v) ∈ pairs ∧ st2.host = v := by
  induction pairs with
  | nil =>
    intro st st2 h
    rw [reqFold] at h
    simp only [Except.ok.injEq] at h; subst h
    left; rfl
  | cons kv rest ih =>
    intro st st2 h
    obtain ⟨k, v⟩ := kv
    rw [reqFold] at h
    cases hs : reqStep st k v with
    | error e => rw [hs] at h; simp at h
    | ok st1 =>
      rw [hs] at h
      simp only at h
      rcases ih st1 st2 h with h2 | ⟨w, hw, he⟩
      · rcases reqStep_host hs with h3 | ⟨hk, hv⟩
        · left; rw [h2, h3]
        · right
          subst hk
          exact ⟨v, List.mem_cons_self _ _, by rw [h2, hv]⟩
      · right
        exact ⟨w, List.mem_cons_of_mem _ hw, he⟩

theorem reqFold_ct (pairs : List (List Nat × List Nat)) :
    ∀ st st2 : RequestHeader, reqFold st pairs = .ok st2 →
    st2.contentType = st.contentType ∨
      ∃ v, (strContentType, v) ∈ pairs ∧ st2.contentType = v := by
  induction pairs with
  | nil =>
    intro st st2 h
    rw [reqFold] at h
    simp only [Except.ok.injEq] at h; subst h
    left; rfl
  | cons kv rest ih =>
    intro st st2 h
    obtain ⟨k, v⟩ := kv
    rw [reqFold] at h
    cases hs : reqStep st k v with
    | error e => rw [hs] at h; simp at h
    | ok st1 =>
      rw [hs] at h
      simp only at h
      rcases ih st1 st2 h with h2 | ⟨w, hw, he⟩
      · rcases reqStep_ct hs with h3 | ⟨hk, hv⟩
        · left; rw [h2, h3]
        · right
          subst hk
          exact ⟨v, List.mem_cons_self _ _, by rw [h2, hv]⟩
      · right
        exact ⟨w, List.mem_cons_of_mem _ hw, he⟩

theorem reqFold_cl (pairs : List (List Nat × List Nat)) :
    ∀ st st2 : RequestHeader, reqFold st pairs = .ok st2 →
    st2.contentLength = st.contentLength ∨
      (∃ v, (strContentLength, v) ∈ pairs) ∨
      (strTransferEncoding, strChunked) ∈ pairs := by
  induction pairs with
  | nil =>
    intro st st2 h
    rw [reqFold] at h
    simp only [Except.ok.injEq] at h; subst h
    left; rfl
  | cons kv rest ih =>
    intro st st2 h
    obtain ⟨k, v⟩ := kv
    rw [reqFold] at h
    cases hs : reqStep st k v with
    | error e => rw [hs] at h; simp at h
    | ok st1 =>
      rw [hs] at h
      simp only at h
      rcases ih st1 st2 h with h2 | h2 | h2
      · rcases reqStep_cl hs with h3 | h3 | ⟨hk, hv⟩
        · left; rw [h2, h3]
        · right; left
          subst h3
          exact ⟨v, List.mem_cons_self _ _⟩
        · right; right
          subst hk
          subst hv
          exact List.mem_cons_self _ _
      · right; left
        obtain ⟨w, hw⟩ := h2
        exact ⟨w, List.mem_cons_of_mem _ hw⟩
      · right; right
        exact List.mem_cons_of_mem _ h2

/-- C4: a successful request-header parse implies a (nonempty) Host header was
present; for POST it additionally implies a nonempty Content-Type and either a
Content-Length header or Transfer-Encoding: chunked; for non-POST the
resulting ContentLength is 0 whatever length headers were present. -/
theorem c4_request_preconditions (method buf : List Nat) (st2 : RequestHeader)
    (rest : List Nat) (pairs : List (List Nat × List Nat))
    (hph : reqParseHeaders method buf = .ok (st2, rest))
    (hkv : headerKVs (buf.length + 1) buf = .ok (pairs, rest)) :
    (∃ v, (strHost, v) ∈ pairs ∧ v ≠ []) ∧
    (method = strPost →
      (∃ v, (strContentType, v) ∈ pairs ∧ v ≠ []) ∧
      ((∃ v, (strContentLength, v) ∈ pairs) ∨
        (strTransferEncoding, strChunked) ∈ pairs)) ∧
    (method ≠ strPost → st2.contentLength = 0) := by
  rw [reqParseHeaders] at hph
  cases hl : reqLoop (buf.length + 1) { method := method, contentLength := -2 } buf with
  | error e => rw [hl] at hph; simp at hph
  | ok pr =>
    obtain ⟨h0, rest0⟩ := pr
    rw [hl] at hph
    simp only at hph
    obtain ⟨pairs2, hkv2, hfold⟩ := reqLoop_kvs _ _ _ _ _ hl
    have hm : h0.method = method := reqFold_method _ _ _ hfold
    by_cases hhost : h0.host = []
    · rw [if_pos hhost] at hph
      simp at hph
    · rw [if_neg hhost] at hph
      have hhostex : ∃ v, (strHost, v) ∈ pairs2 ∧ v ≠ [] := by
        rcases reqFold_host _ _ _ hfold with h2 | ⟨w, hw, he⟩
        · exact absurd h2 hhost
        · exact ⟨w, hw, fun hwe => hhost (by rw [he, hwe])⟩
      by_cases hpost : h0.isMethodPost = true
      · have hmp : method = strPost := by
          rw [← hm]
          simpa [RequestHeader.isMethodPost] using hpost
        rw [if_pos hpost] at hph
        by_cases hct0 : h0.contentType = []
        · rw [if_pos hct0] at hph
          simp at hph
        · rw [if_neg hct0] at hph
          by_cases hcl0 : h0.contentLength = -2
          · rw [if_pos hcl0] at hph
            simp at hph
          · rw [if_neg hcl0] at hph
            simp only [Except.ok.injEq, Prod.mk.injEq] at hph
            obtain ⟨rfl, rfl⟩ := hph
            rw [hkv] at hkv2
            simp only [Except.ok.injEq, Prod.mk.injEq] at hkv2
            obtain ⟨rfl, -⟩ := hkv2
            refine ⟨hhostex, fun _ => ⟨?_, ?_⟩, fun hnp => absurd hmp hnp⟩
            · rcases reqFold_ct _ _ _ hfold with h2 | ⟨w, hw, he⟩
              · exact absurd h2 hct0
              · exact ⟨w, hw, fun hwe => hct0 (by rw [he, hwe])⟩
            · rcases reqFold_cl _ _ _ hfold with h2 | h2 | h2
              · exact absurd h2 hcl0
              · exact Or.inl h2
              · exact Or.inr h2
      · rw [if_neg hpost] at hph
        simp only [Except.ok.injEq, Prod.mk.injEq] at hph
        obtain ⟨rfl, rfl⟩ := hph
        rw [hkv] at hkv2
        simp only [Except.ok.injEq, Prod.mk.injEq] at hkv2
        obtain ⟨rfl, -⟩ := hkv2
        refine ⟨hhostex, fun hmp => ?_, fun _ => rfl⟩
        exact absurd (by rw [← hm] at hmp; simp [RequestHeader.isMethodPost, hmp]) hpost

/-- C4 witness: a GET with a Content-Length header parses with
ContentLength forced to 0 and a Host pair among the lexed headers. -/
theorem c4_request_preconditions_witness :
    reqParseHeaders (strBytes "GET")
        (strBytes "Host: g.com\r\nContent-Length: 5\r\n\r\n") =
      .ok ({ method := strBytes "GET", host := strBytes "g.com",
             contentLength := 0 }, []) ∧
    (∃ v, (strHost, v) ∈
        [(strHost, strBytes "g.com"), (strContentLength, strBytes "5")] ∧
      v ≠ []) ∧
    ({ method := strBytes "GET", host := strBytes "g.com",
       contentLength := 0 } : RequestHeader).contentLength = 0 := by
  have h := c4_request_preconditions (strBytes "GET")
    (strBytes "Host: g.com\r\nContent-Length: 5\r\n\r\n")
    { method := strBytes "GET", host := strBytes "g.com", contentLength := 0 }
    []
    [(strHost, strBytes "g.com"), (strContentLength, strBytes "5")]
    (by decide) (by decide)
  exact ⟨by decide, h.1, h.2.2 (by decide)⟩
